import Mathlib

/-!
# Verification of the emmy Schnorr-group arithmetic and CL credential presentation

Shallow embedding of `crypto/groups/schnorr.go` (the `SchnorrGroup` type and its
operations `Add`, `Mul`, `Exp`, `Inv`, `IsElementInGroup`, `GetRandomElement`,
`NewSchnorrGroup`, `NewSchnorrGroupFromParams`) over `Int`, with the external
`math/big` primitives modelled by their contracts, plus a spec-modelled sigma
protocol for the CL selective-disclosure presentation whose implementation is
exercised by the repository's `TestCL` but lives outside the sources at hand.

Go's `big.Int.Mod` and Lean's `Int.emod` agree: both return the Euclidean
remainder in `[0, |m|)` for a nonzero modulus.
-/

set_option maxRecDepth 8000

/-- The external `math/big` primitive `Exp(x, y, m)` as used by the group code,
which only ever passes a non-negative exponent `y`: for `m = 0` the power is
returned unreduced, otherwise it is reduced to the Euclidean remainder in
`[0, |m|)`, exactly as `big.Int.Exp` does. -/
def bigExp (x y m : Int) : Int :=
  if m = 0 then x ^ y.toNat else x ^ y.toNat % m

/-- The external `math/big` primitive `ModInverse(g, n)`, modelled by its
contract: for `n > 0` and `gcd(g, n) = 1` it yields the unique multiplicative
inverse of `g` modulo `n` lying in `[0, n)` (found here by search over that
range, which pins down the same value `big.Int.ModInverse` computes by the
extended Euclidean algorithm); otherwise no usable value is produced. -/
def bigModInverse (g n : Int) : Option Int :=
  if 0 < n ∧ Int.gcd g n = 1 then
    ((List.range n.toNat).map (fun k : Nat => (k : Int))).find? (fun y => g * y % n == 1)
  else none

/-- `SchnorrGroup` from `schnorr.go`: modulus `P`, subgroup generator `G`,
order `Q` of `G`. -/
structure SchnorrGroup where
  P : Int
  G : Int
  Q : Int

/-- `NewSchnorrGroupFromParams` from `schnorr.go`: wraps the three given values
with no validation whatsoever. -/
def NewSchnorrGroupFromParams (p g q : Int) : SchnorrGroup :=
  { P := p, G := g, Q := q }

/-- `SchnorrGroup.Add` from `schnorr.go`: `x + y mod P`. -/
def SchnorrGroup.Add (group : SchnorrGroup) (x y : Int) : Int :=
  (x + y) % group.P

/-- `SchnorrGroup.Mul` from `schnorr.go`: `x * y mod P`. -/
def SchnorrGroup.Mul (group : SchnorrGroup) (x y : Int) : Int :=
  x * y % group.P

/-- `SchnorrGroup.Inv` from `schnorr.go`: `ModInverse(x, P)`. -/
def SchnorrGroup.Inv (group : SchnorrGroup) (x : Int) : Option Int :=
  bigModInverse x group.P

/-- `SchnorrGroup.Exp` from `schnorr.go`: for a negative exponent it computes
`base^|exponent| mod P` and then applies `Inv`; otherwise `base^exponent mod P`.
The result is an `Option` because the negative-exponent path inherits the
possible failure of `ModInverse`. -/
def SchnorrGroup.Exp (group : SchnorrGroup) (base exponent : Int) : Option Int :=
  if exponent < 0 then
    group.Inv (bigExp base (-exponent) group.P)
  else
    some (bigExp base exponent group.P)

/-- `SchnorrGroup.GetRandomElement` from `schnorr.go`: `Exp(G, r)` for a random
`r` drawn uniformly from `[0, Q)`; the draw is modelled by passing `r` in. -/
def SchnorrGroup.GetRandomElement (group : SchnorrGroup) (r : Int) : Option Int :=
  group.Exp group.G r

/-- `SchnorrGroup.IsElementInGroup` from `schnorr.go`: computes
`check := Exp(x, Q)` and compares it with `1`. -/
def SchnorrGroup.IsElementInGroup (group : SchnorrGroup) (x : Int) : Option Bool :=
  (group.Exp x group.Q).map (fun check => check == 1)

/-- The enumerated DSA parameter sizes `NewSchnorrGroup` can request from the
external generator (`crypto/dsa`). -/
inductive ParameterSizes
  | L1024N160
  | L2048N224
  | L2048N256

/-- The `(P, Q, G)` triple produced by the external DSA parameter generator. -/
structure DsaParameters where
  P : Int
  Q : Int
  G : Int

/-- The two failure cases of `NewSchnorrGroup` in `schnorr.go`: the explicit
"generating Schnorr primes for bit length %d is not supported" error, and a
failure propagated from the external generator. -/
inductive SchnorrError
  | unsupportedBitLength (qBitLength : Int)
  | generationFailure

/-- The bit-length dispatch at the top of `NewSchnorrGroup` in `schnorr.go`:
160, 224 and 256 map to the three supported DSA sizes, anything else falls
through to the error branch. -/
def chooseSizes (qBitLength : Int) : Option ParameterSizes :=
  if qBitLength = 160 then some ParameterSizes.L1024N160
  else if qBitLength = 224 then some ParameterSizes.L2048N224
  else if qBitLength = 256 then some ParameterSizes.L2048N256
  else none

/-- `NewSchnorrGroup` from `schnorr.go`: dispatches on the requested subgroup
bit length, invokes the external DSA parameter generator (modelled as an
oracle argument), and wraps the resulting `(P, G, Q)`. -/
def NewSchnorrGroup (generateParameters : ParameterSizes → Option DsaParameters)
    (qBitLength : Int) : Except SchnorrError SchnorrGroup :=
  match chooseSizes qBitLength with
  | none => Except.error (SchnorrError.unsupportedBitLength qBitLength)
  | some sizes =>
    match generateParameters sizes with
    | none => Except.error SchnorrError.generationFailure
    | some params => Except.ok { P := params.P, G := params.G, Q := params.Q }

/-- The composite checked by the spec's algebraic property for `Exp`:
`Mul(Exp(b, e), Exp(b, -e))`, defined whenever both exponentiations are. -/
def expInvProduct (group : SchnorrGroup) (b e : Int) : Option Int :=
  match group.Exp b e, group.Exp b (-e) with
  | some u, some v => some (group.Mul u v)
  | _, _ => none

theorem intPowEmod (a : Int) (b : Nat) (n : Int) : a ^ b % n = (a % n) ^ b % n := by
  induction b with
  | zero => simp
  | succ k ih =>
    rw [pow_succ, pow_succ, Int.mul_emod, ih]
    conv_rhs => rw [Int.mul_emod]
    rw [Int.emod_emod_of_dvd _ dvd_rfl]

/-- Claim C8: `NewSchnorrGroupFromParams(P, G, Q)` performs no validation and
never fails: for all inputs, including invalid ones, it returns a group whose
`P`, `G` and `Q` fields are exactly the given values (totality of the Lean
function witnesses that no failure path exists). -/
theorem newSchnorrGroupFromParams_no_validation (p g q : Int) :
    (NewSchnorrGroupFromParams p g q).P = p ∧
    (NewSchnorrGroupFromParams p g q).G = g ∧
    (NewSchnorrGroupFromParams p g q).Q = q :=
  ⟨rfl, rfl, rfl⟩

/-- Claim C7: for every `qBitLength` outside `{160, 224, 256}`,
`NewSchnorrGroup` fails with the explicit unsupported-size error and constructs
no group, whatever the external parameter generator would have returned. -/
theorem newSchnorrGroup_unsupported_bitlength
    (generateParameters : ParameterSizes → Option DsaParameters) (qBitLength : Int)
    (h160 : qBitLength ≠ 160) (h224 : qBitLength ≠ 224) (h256 : qBitLength ≠ 256) :
    NewSchnorrGroup generateParameters qBitLength
      = Except.error (SchnorrError.unsupportedBitLength qBitLength) := by
  unfold NewSchnorrGroup chooseSizes
  rw [if_neg h160, if_neg h224, if_neg h256]

theorem newSchnorrGroup_unsupported_bitlength_witness :
    NewSchnorrGroup (fun _ => none) 100
      = Except.error (SchnorrError.unsupportedBitLength 100) :=
  newSchnorrGroup_unsupported_bitlength (fun _ => none) 100
    (by decide) (by decide) (by decide)

/-- Claim C10: for a positive modulus `P`, both `Add` and `Mul` return the
canonical representative in `[0, P)` for all integer inputs, including negative
ones and ones of magnitude at least `P`. -/
theorem add_mul_canonical_range (group : SchnorrGroup) (x y : Int)
    (hP : 0 < group.P) :
    (0 ≤ group.Add x y ∧ group.Add x y < group.P) ∧
    (0 ≤ group.Mul x y ∧ group.Mul x y < group.P) :=
  ⟨⟨Int.emod_nonneg _ (ne_of_gt hP), Int.emod_lt_of_pos _ hP⟩,
   ⟨Int.emod_nonneg _ (ne_of_gt hP), Int.emod_lt_of_pos _ hP⟩⟩

theorem add_mul_canonical_range_witness :
    (0 ≤ (SchnorrGroup.mk 23 2 11).Add (-30) 40 ∧
      (SchnorrGroup.mk 23 2 11).Add (-30) 40 < 23) ∧
    (0 ≤ (SchnorrGroup.mk 23 2 11).Mul (-30) 40 ∧
      (SchnorrGroup.mk 23 2 11).Mul (-30) 40 < 23) :=
  add_mul_canonical_range (SchnorrGroup.mk 23 2 11) (-30) 40 (by decide)

/-- Claim C2: for a positive modulus, `Exp(b, e)` with negative `e` equals
`Inv(b^|e| mod P)`, and with non-negative `e` it equals `b^e mod P`. -/
theorem exp_negative_exponent_via_inverse (group : SchnorrGroup) (b e : Int)
    (hP : 0 < group.P) :
    (e < 0 → group.Exp b e = group.Inv (b ^ (-e).toNat % group.P)) ∧
    (0 ≤ e → group.Exp b e = some (b ^ e.toNat % group.P)) := by
  constructor
  · intro he
    rw [SchnorrGroup.Exp, if_pos he, bigExp, if_neg (ne_of_gt hP)]
  · intro he
    rw [SchnorrGroup.Exp, if_neg (not_lt.mpr he), bigExp, if_neg (ne_of_gt hP)]

theorem exp_negative_exponent_via_inverse_witness :
    (SchnorrGroup.mk 23 2 11).Exp 5 (-3)
        = (SchnorrGroup.mk 23 2 11).Inv ((5 : Int) ^ (-(-3) : Int).toNat % 23) ∧
    (SchnorrGroup.mk 23 2 11).Exp 5 3 = some ((5 : Int) ^ (3 : Int).toNat % 23) :=
  ⟨(exp_negative_exponent_via_inverse (SchnorrGroup.mk 23 2 11) 5 (-3) (by decide)).1
      (by decide),
   (exp_negative_exponent_via_inverse (SchnorrGroup.mk 23 2 11) 5 3 (by decide)).2
      (by decide)⟩

theorem bigModInverse_eq_some (x P0 : Int) (hP : 1 < P0) (hg : Int.gcd x P0 = 1) :
    ∃ y, bigModInverse x P0 = some y ∧ x * y % P0 = 1 := by
  have hP0 : (0 : Int) < P0 := by omega
  have hbez : (1 : Int) = x * Int.gcdA x P0 + P0 * Int.gcdB x P0 := by
    have h := Int.gcd_eq_gcd_ab x P0
    rw [hg] at h
    exact_mod_cast h
  have hy0n : 0 ≤ Int.gcdA x P0 % P0 := Int.emod_nonneg _ (by omega)
  have hy0l : Int.gcdA x P0 % P0 < P0 := Int.emod_lt_of_pos _ hP0
  have hxy0 : x * (Int.gcdA x P0 % P0) % P0 = 1 := by
    have h1 : x * (Int.gcdA x P0 % P0) % P0 = x * Int.gcdA x P0 % P0 := by
      rw [Int.mul_emod, Int.emod_emod_of_dvd _ dvd_rfl, ← Int.mul_emod]
    have h2 : x * Int.gcdA x P0 = 1 + P0 * (-Int.gcdB x P0) := by linarith
    rw [h1, h2, Int.add_mul_emod_self_left]
    exact Int.emod_eq_of_lt (by norm_num) hP
  have hlt : (Int.gcdA x P0 % P0).toNat < P0.toNat := by omega
  have hmem : Int.gcdA x P0 % P0 ∈ (List.range P0.toNat).map (fun k : Nat => (k : Int)) := by
    have h := List.mem_map_of_mem (fun k : Nat => (k : Int)) (List.mem_range.mpr hlt)
    simpa [Int.toNat_of_nonneg hy0n] using h
  have hsome :
      (((List.range P0.toNat).map (fun k : Nat => (k : Int))).find?
        (fun y => x * y % P0 == 1)).isSome := by
    rw [List.find?_isSome]
    exact ⟨Int.gcdA x P0 % P0, hmem, by simp [hxy0]⟩
  obtain ⟨y, hy⟩ := Option.isSome_iff_exists.mp hsome
  have hfound := List.find?_some hy
  refine ⟨y, ?_, by simpa using hfound⟩
  rw [bigModInverse, if_pos ⟨hP0, hg⟩]
  exact hy

theorem gcd_pow_emod (b P0 : Int) (hg : Int.gcd b P0 = 1) (n : Nat) :
    Int.gcd (b ^ n % P0) P0 = 1 := by
  rw [Int.gcd_eq_one_iff_coprime] at hg ⊢
  have hpow : IsCoprime (b ^ n) P0 := hg.pow_left
  have hsplit : b ^ n % P0 = b ^ n + P0 * (-(b ^ n / P0)) := by
    rw [Int.emod_def]; ring
  rw [hsplit]
  exact hpow.add_mul_left_left _

/-- Claim C1: for a genuine modulus (`P > 1`) and non-negative order `Q`,
`IsElementInGroup(x)` answers `true` exactly when `x^Q ≡ 1 (mod P)`. -/
theorem isElementInGroup_iff_powQ_one (group : SchnorrGroup) (x : Int)
    (hP : 1 < group.P) (hQ : 0 ≤ group.Q) :
    group.IsElementInGroup x = some true ↔
      x ^ group.Q.toNat ≡ 1 [ZMOD group.P] := by
  have h1P : (1 : Int) % group.P = 1 := Int.emod_eq_of_lt (by norm_num) hP
  unfold Int.ModEq
  rw [h1P, SchnorrGroup.IsElementInGroup, SchnorrGroup.Exp, if_neg (not_lt.mpr hQ),
    bigExp, if_neg (show group.P ≠ 0 by omega)]
  simp [beq_iff_eq]

theorem isElementInGroup_iff_powQ_one_witness :
    (SchnorrGroup.mk 23 2 11).IsElementInGroup 8 = some true :=
  (isElementInGroup_iff_powQ_one (SchnorrGroup.mk 23 2 11) 8 (by decide)
    (by decide)).mpr (by decide)

/-- Claim C5: for every `x` coprime to a genuine modulus `P`, `Inv(x)` succeeds
and `Mul(x, Inv(x)) = 1`. -/
theorem mul_inv_eq_one_of_coprime (group : SchnorrGroup) (x : Int)
    (hP : 1 < group.P) (hg : Int.gcd x group.P = 1) :
    (group.Inv x).map (fun y => group.Mul x y) = some 1 := by
  obtain ⟨y, hy, hxy⟩ := bigModInverse_eq_some x group.P hP hg
  rw [SchnorrGroup.Inv, hy]
  simp [SchnorrGroup.Mul, hxy]

theorem mul_inv_eq_one_of_coprime_witness :
    ((SchnorrGroup.mk 23 2 11).Inv 8).map
      (fun y => (SchnorrGroup.mk 23 2 11).Mul 8 y) = some 1 :=
  mul_inv_eq_one_of_coprime (SchnorrGroup.mk 23 2 11) 8 (by decide) (by decide)

/-- Claim C4: `Inv(x)` yields no usable value whenever `gcd(x, P) ≠ 1`; and for
a prime positive modulus and positive order, any `x` accepted by
`IsElementInGroup` is coprime to `P`, so this failure cannot occur for valid
group elements and `Inv` succeeds on them. -/
theorem inv_undefined_outside_coprime (group : SchnorrGroup) (x : Int) :
    (Int.gcd x group.P ≠ 1 → group.Inv x = none) ∧
    (Prime group.P → 0 < group.P → 0 < group.Q →
      group.IsElementInGroup x = some true →
      Int.gcd x group.P = 1 ∧ ∃ y, group.Inv x = some y) := by
  constructor
  · intro hg
    rw [SchnorrGroup.Inv, bigModInverse, if_neg (fun h => hg h.2)]
  · intro hprime hPpos hQpos hmem
    have hne1 := hprime.ne_one
    have hP : 1 < group.P := by omega
    rw [SchnorrGroup.IsElementInGroup, SchnorrGroup.Exp,
      if_neg (not_lt.mpr (le_of_lt hQpos)), bigExp,
      if_neg (show group.P ≠ 0 by omega)] at hmem
    simp only [Option.map_some', Option.some.injEq, beq_iff_eq] at hmem
    have hn0 : group.Q.toNat ≠ 0 := by omega
    have hndvd : ¬ group.P ∣ x := by
      intro hdvd
      have hdp : group.P ∣ x ^ group.Q.toNat := dvd_pow hdvd hn0
      have h0 : x ^ group.Q.toNat % group.P = 0 := Int.emod_eq_zero_of_dvd hdp
      omega
    have hcop : Int.gcd x group.P = 1 := by
      rw [Int.gcd_eq_one_iff_coprime]
      exact ((hprime.coprime_iff_not_dvd).mpr hndvd).symm
    obtain ⟨y, hy, _⟩ := bigModInverse_eq_some x group.P hP hcop
    exact ⟨hcop, y, hy⟩

theorem inv_undefined_outside_coprime_witness :
    (SchnorrGroup.mk 23 2 11).Inv 0 = none ∧ Int.gcd 8 23 = 1 :=
  ⟨(inv_undefined_outside_coprime (SchnorrGroup.mk 23 2 11) 0).1 (by decide),
   ((inv_undefined_outside_coprime (SchnorrGroup.mk 23 2 11) 8).2
      (by norm_num) (by decide) (by decide) (by decide)).1⟩

/-- Claim C6: a value returned by `GetRandomElement` for an exponent draw
`r ∈ [0, Q)` is exactly `G^r mod P`, and, when the generator satisfies
`G^Q ≡ 1 (mod P)`, that value passes `IsElementInGroup`. -/
theorem getRandomElement_in_subgroup (group : SchnorrGroup) (r : Int)
    (hP : 1 < group.P) (hr0 : 0 ≤ r) (hrQ : r < group.Q)
    (hG : group.G ^ group.Q.toNat % group.P = 1) :
    group.GetRandomElement r = some (group.G ^ r.toNat % group.P) ∧
    group.IsElementInGroup (group.G ^ r.toNat % group.P) = some true := by
  have hPne : group.P ≠ 0 := by omega
  have hQ0 : ¬ group.Q < 0 := by omega
  constructor
  · rw [SchnorrGroup.GetRandomElement, SchnorrGroup.Exp, if_neg (not_lt.mpr hr0),
      bigExp, if_neg hPne]
  · rw [SchnorrGroup.IsElementInGroup, SchnorrGroup.Exp, if_neg hQ0, bigExp,
      if_neg hPne]
    have key : (group.G ^ r.toNat % group.P) ^ group.Q.toNat % group.P = 1 := by
      rw [← intPowEmod, ← pow_mul, mul_comm r.toNat group.Q.toNat, pow_mul,
        intPowEmod, hG, one_pow]
      exact Int.emod_eq_of_lt (by norm_num) hP
    simp [key]

theorem getRandomElement_in_subgroup_witness :
    (SchnorrGroup.mk 23 2 11).GetRandomElement 3
        = some ((2 : Int) ^ (3 : Int).toNat % 23) ∧
    (SchnorrGroup.mk 23 2 11).IsElementInGroup ((2 : Int) ^ (3 : Int).toNat % 23)
        = some true :=
  getRandomElement_in_subgroup (SchnorrGroup.mk 23 2 11) 3 (by decide) (by decide)
    (by decide) (by decide)

/-- Claim C3 counterexample: in the Schnorr group with prime modulus 23,
generator 2 and order 11, the base `b = 0` (which is not coprime to `P`)
defeats `Mul(Exp(b, e), Exp(b, -e)) = 1` at `e = 1`: the negative-exponent
side has no modular inverse, so the product is not `1`. -/
theorem exp_inv_product_fails_at_zero_base :
    expInvProduct (SchnorrGroup.mk 23 2 11) 0 1 ≠ some 1 := by decide

/-- Claim C3 (amended): for every base `b` coprime to a genuine modulus
(`P > 1`) and every exponent `e`, including negative `e`,
`Mul(Exp(b, e), Exp(b, -e)) = 1`. -/
theorem exp_inv_product_one_of_coprime (group : SchnorrGroup) (b e : Int)
    (hP : 1 < group.P) (hg : Int.gcd b group.P = 1) :
    expInvProduct group b e = some 1 := by
  have hPne : group.P ≠ 0 := by omega
  have h1P : (1 : Int) % group.P = 1 := Int.emod_eq_of_lt (by norm_num) hP
  rcases lt_trichotomy e 0 with he | he | he
  · obtain ⟨y, hy, hxy⟩ := bigModInverse_eq_some (b ^ (-e).toNat % group.P) group.P
      hP (gcd_pow_emod b group.P hg _)
    have h1 : group.Exp b e = some y := by
      rw [SchnorrGroup.Exp, if_pos he, bigExp, if_neg hPne, SchnorrGroup.Inv]
      exact hy
    have h2 : group.Exp b (-e) = some (b ^ (-e).toNat % group.P) := by
      rw [SchnorrGroup.Exp, if_neg (by omega : ¬ -e < 0), bigExp, if_neg hPne]
    unfold expInvProduct
    rw [h1, h2]
    show some (group.Mul y (b ^ (-e).toNat % group.P)) = some 1
    rw [SchnorrGroup.Mul, mul_comm y (b ^ (-e).toNat % group.P), hxy]
  · subst he
    simp [expInvProduct, SchnorrGroup.Exp, bigExp, hPne, SchnorrGroup.Mul, h1P]
  · obtain ⟨y, hy, hxy⟩ := bigModInverse_eq_some (b ^ e.toNat % group.P) group.P
      hP (gcd_pow_emod b group.P hg _)
    have h1 : group.Exp b e = some (b ^ e.toNat % group.P) := by
      rw [SchnorrGroup.Exp, if_neg (by omega : ¬ e < 0), bigExp, if_neg hPne]
    have h2 : group.Exp b (-e) = some y := by
      rw [SchnorrGroup.Exp, if_pos (by omega : -e < 0), neg_neg, bigExp,
        if_neg hPne, SchnorrGroup.Inv]
      exact hy
    unfold expInvProduct
    rw [h1, h2]
    show some (group.Mul (b ^ e.toNat % group.P) y) = some 1
    rw [SchnorrGroup.Mul, hxy]

theorem exp_inv_product_one_of_coprime_witness :
    expInvProduct (SchnorrGroup.mk 23 2 11) 5 (-3) = some 1 :=
  exp_inv_product_one_of_coprime (SchnorrGroup.mk 23 2 11) 5 (-3) (by decide)
    (by decide)

/-- Modelled from the spec: the CL package itself (Organization, Credential
Manager, the sigma-protocol engine of section 4.5) is exercised by the
repository's `TestCL` but its implementation is not among the sources at hand,
so the selective-disclosure presentation is modelled from the spec's words.
One attribute position of the verifier's view: either a literal revealed
attribute value, or the sigma response `blinding + challenge * value` for an
undisclosed attribute. -/
inductive Disclosure
  | revealedAttr (value : Nat)
  | hiddenResponse (value : Nat)

/-- Modelled from the spec: one attribute position on the prover's side — the
scheme generator for the position, the attribute value, whether the position
is revealed in this presentation, and the fresh blinding randomness drawn for
it by `BuildCredentialProof`. -/
structure AttrPosition where
  gen : Nat
  value : Nat
  isRevealed : Bool
  blinding : Nat

/-- Modelled from the spec: the signature-like credential value binding the
attribute vector under the organization generators — the product of
`gen^value` over all positions (reduced mod P only when transmitted). -/
def credCommitment : List AttrPosition → Nat
  | [] => 1
  | p :: rest => p.gen ^ p.value * credCommitment rest

/-- Modelled from the spec: the prover's first sigma-protocol move — the
commitment to the blinding randomness of every undisclosed position. -/
def proofCommitment : List AttrPosition → Nat
  | [] => 1
  | p :: rest => (if p.isRevealed then 1 else p.gen ^ p.blinding) * proofCommitment rest

/-- Modelled from the spec: the responses sent by `BuildCredentialProof` —
revealed positions carry the literal attribute value, undisclosed ones carry
the response `blinding + challenge * value` (computed over the integers, as
section 4.5 allows for statistically hiding responses). -/
def buildDisclosures (challenge : Nat) : List AttrPosition → List (Nat × Disclosure)
  | [] => []
  | p :: rest =>
    (p.gen, if p.isRevealed then Disclosure.revealedAttr p.value
            else Disclosure.hiddenResponse (p.blinding + challenge * p.value))
      :: buildDisclosures challenge rest

/-- Modelled from the spec: the verifier's recomputation of the expected
commitment from public generators, revealed attributes and responses —
`gen^(challenge * value)` for a revealed literal, `gen^response` for an
undisclosed position. -/
def recombine (challenge : Nat) : List (Nat × Disclosure) → Nat
  | [] => 1
  | (g, Disclosure.revealedAttr a) :: rest => g ^ (challenge * a) * recombine challenge rest
  | (g, Disclosure.hiddenResponse s) :: rest => g ^ s * recombine challenge rest

/-- Modelled from the spec: `Organization.ProveCredential` — the verification
of a presentation proof. It uses only public data (no secret key is involved,
matching the verification-only Organization built from the public key alone):
it accepts iff the recombined product matches
`proofCommit * credential^challenge (mod P)`. -/
def ProveCredential (P credential proofCommit challenge : Nat)
    (ds : List (Nat × Disclosure)) : Bool :=
  decide (recombine challenge ds % P = proofCommit * credential ^ challenge % P)

theorem recombine_buildDisclosures (c : Nat) (ps : List AttrPosition) :
    recombine c (buildDisclosures c ps)
      = proofCommitment ps * credCommitment ps ^ c := by
  induction ps with
  | nil => simp [recombine, buildDisclosures, proofCommitment, credCommitment]
  | cons p rest ih =>
    cases hrev : p.isRevealed <;>
      simp [recombine, buildDisclosures, proofCommitment, credCommitment, hrev, ih,
        mul_pow, pow_add, pow_mul] <;> ring

theorem proveCredential_complete (P c : Nat) (ps : List AttrPosition) :
    ProveCredential P (credCommitment ps % P) (proofCommitment ps % P) c
      (buildDisclosures c ps) = true := by
  rw [ProveCredential, decide_eq_true_iff, recombine_buildDisclosures]
  conv_rhs => rw [Nat.mul_mod, Nat.mod_mod_of_dvd _ dvd_rfl, ← Nat.pow_mod, ← Nat.mul_mod]

theorem natPowModPeriod (g n P0 : Nat) (h1 : g ^ n % P0 = 1 % P0)
    (a : Nat) : g ^ a % P0 = g ^ (a % n) % P0 := by
  conv_lhs => rw [← Nat.div_add_mod a n]
  rw [pow_add, pow_mul, Nat.mul_mod, Nat.pow_mod, h1, ← Nat.pow_mod, one_pow,
    ← Nat.mul_mod, one_mul]

theorem powMulModPeriod (g M P0 n : Nat) (h1 : g ^ n % P0 = 1 % P0)
    (a : Nat) : g ^ a * M % P0 = g ^ (a % n) * M % P0 := by
  rw [Nat.mul_mod, natPowModPeriod g n P0 h1 a, ← Nat.mul_mod]

theorem mul5_mod11 (v : Nat) : 5 * v % 11 = 5 * (v % 11) % 11 := by
  conv_lhs => rw [Nat.mul_mod]

/-- Modelled from the spec: the attribute positions of the end-to-end
selective-disclosure scenario, after the update — known attributes
`[17, 18, 19, 27]` with indices `{1, 2}` revealed (literal values 18 and 19),
committed attributes `[9, 17]` with index `{0}` revealed (opened value 9), and
hidden attributes `[11, 13, 19]`. The scheme generators are concrete members
of the order-11 subgroup of `Z_23*` (powers of 2), and the blinding
randomness drawn by `BuildCredentialProof` is fixed to concrete values. -/
def scenarioPositions : List AttrPosition :=
  [⟨2, 17, false, 3⟩, ⟨4, 18, true, 0⟩, ⟨8, 19, true, 0⟩, ⟨16, 27, false, 5⟩,
   ⟨9, 9, true, 0⟩, ⟨18, 17, false, 7⟩,
   ⟨13, 11, false, 2⟩, ⟨3, 13, false, 6⟩, ⟨6, 19, false, 4⟩]

/-- The credential value the scenario verifier receives (reduced mod 23). -/
def scenarioCredential : Nat := credCommitment scenarioPositions % 23

/-- The sigma-commitment the scenario verifier receives (reduced mod 23). -/
def scenarioCommit : Nat := proofCommitment scenarioPositions % 23

/-- The scenario's honest disclosure list with the revealed known attribute at
index 1 (honest literal 18) replaced by an arbitrary value `v`. -/
def alteredDisclosures1 (v : Nat) : List (Nat × Disclosure) :=
  (2, Disclosure.hiddenResponse 88) :: (4, Disclosure.revealedAttr v) ::
  [(8, Disclosure.revealedAttr 19), (16, Disclosure.hiddenResponse 140),
   (9, Disclosure.revealedAttr 9), (18, Disclosure.hiddenResponse 92),
   (13, Disclosure.hiddenResponse 57), (3, Disclosure.hiddenResponse 71),
   (6, Disclosure.hiddenResponse 99)]

/-- The scenario's honest disclosure list with the revealed known attribute at
index 2 (honest literal 19) replaced by an arbitrary value `v`. -/
def alteredDisclosures2 (v : Nat) : List (Nat × Disclosure) :=
  (2, Disclosure.hiddenResponse 88) :: (4, Disclosure.revealedAttr 18) ::
  (8, Disclosure.revealedAttr v) ::
  [(16, Disclosure.hiddenResponse 140), (9, Disclosure.revealedAttr 9),
   (18, Disclosure.hiddenResponse 92), (13, Disclosure.hiddenResponse 57),
   (3, Disclosure.hiddenResponse 71), (6, Disclosure.hiddenResponse 99)]

/-- The scenario's honest disclosure list with the revealed committed
attribute at index 0 (honest opened value 9) replaced by an arbitrary
value `v`. -/
def alteredDisclosures3 (v : Nat) : List (Nat × Disclosure) :=
  (2, Disclosure.hiddenResponse 88) :: (4, Disclosure.revealedAttr 18) ::
  (8, Disclosure.revealedAttr 19) :: (16, Disclosure.hiddenResponse 140) ::
  (9, Disclosure.revealedAttr v) ::
  [(18, Disclosure.hiddenResponse 92), (13, Disclosure.hiddenResponse 57),
   (3, Disclosure.hiddenResponse 71), (6, Disclosure.hiddenResponse 99)]

theorem altered1_mod (v : Nat) :
    recombine 5 (alteredDisclosures1 v) % 23
      = recombine 5 (alteredDisclosures1 (v % 11)) % 23 := by
  show 2 ^ 88 * (4 ^ (5 * v) * recombine 5 (alteredDisclosures1 0).tail.tail) % 23
    = 2 ^ 88 * (4 ^ (5 * (v % 11)) * recombine 5 (alteredDisclosures1 0).tail.tail) % 23
  conv_lhs => rw [mul_left_comm]
  conv_rhs => rw [mul_left_comm]
  rw [powMulModPeriod 4 _ 23 11 (by norm_num) (5 * v),
    powMulModPeriod 4 _ 23 11 (by norm_num) (5 * (v % 11)), mul5_mod11]

theorem altered1_small : ∀ w < 11, w ≠ 7 →
    ProveCredential 23 scenarioCredential scenarioCommit 5 (alteredDisclosures1 w)
      = false := by decide

theorem altered2_mod (v : Nat) :
    recombine 5 (alteredDisclosures2 v) % 23
      = recombine 5 (alteredDisclosures2 (v % 11)) % 23 := by
  show 2 ^ 88 * (4 ^ (5 * 18) * (8 ^ (5 * v)
      * recombine 5 (alteredDisclosures2 0).tail.tail.tail)) % 23
    = 2 ^ 88 * (4 ^ (5 * 18) * (8 ^ (5 * (v % 11))
      * recombine 5 (alteredDisclosures2 0).tail.tail.tail)) % 23
  have hshape : ∀ x T : Nat, 2 ^ 88 * (4 ^ (5 * 18) * (x * T))
      = x * (2 ^ 88 * (4 ^ (5 * 18) * T)) := fun x T => by ring
  rw [hshape, hshape, powMulModPeriod 8 _ 23 11 (by norm_num) (5 * v),
    powMulModPeriod 8 _ 23 11 (by norm_num) (5 * (v % 11)), mul5_mod11]

theorem altered2_small : ∀ w < 11, w ≠ 8 →
    ProveCredential 23 scenarioCredential scenarioCommit 5 (alteredDisclosures2 w)
      = false := by decide

theorem altered3_mod (v : Nat) :
    recombine 5 (alteredDisclosures3 v) % 23
      = recombine 5 (alteredDisclosures3 (v % 11)) % 23 := by
  show 2 ^ 88 * (4 ^ (5 * 18) * (8 ^ (5 * 19) * (16 ^ 140 * (9 ^ (5 * v)
      * recombine 5 (alteredDisclosures3 0).tail.tail.tail.tail.tail)))) % 23
    = 2 ^ 88 * (4 ^ (5 * 18) * (8 ^ (5 * 19) * (16 ^ 140 * (9 ^ (5 * (v % 11))
      * recombine 5 (alteredDisclosures3 0).tail.tail.tail.tail.tail)))) % 23
  have hshape : ∀ x T : Nat,
      2 ^ 88 * (4 ^ (5 * 18) * (8 ^ (5 * 19) * (16 ^ 140 * (x * T))))
      = x * (2 ^ 88 * (4 ^ (5 * 18) * (8 ^ (5 * 19) * (16 ^ 140 * T)))) :=
    fun x T => by ring
  rw [hshape, hshape, powMulModPeriod 9 _ 23 11 (by norm_num) (5 * v),
    powMulModPeriod 9 _ 23 11 (by norm_num) (5 * (v % 11)), mul5_mod11]

theorem altered3_small : ∀ w < 11, w ≠ 9 →
    ProveCredential 23 scenarioCredential scenarioCommit 5 (alteredDisclosures3 w)
      = false := by decide

/-- Claim C9: in the spec-modelled end-to-end selective-disclosure scenario
(updated known attributes `[17, 18, 19, 27]` with indices `{1, 2}` revealed,
committed attributes `[9, 17]` with index `{0}` revealed, hidden attributes
`[11, 13, 19]`), the public-data-only verification `ProveCredential` accepts
the presentation built by `buildDisclosures` against the revealed literals
`18`, `19` and the opened commitment value `9`; each altered-disclosure list
coincides with the honest one at the honest literal; and altering any one of
the three revealed literals to a value that differs modulo the subgroup
order 11 makes verification return `false`. -/
theorem proveCredential_selective_disclosure :
    ProveCredential 23 scenarioCredential scenarioCommit 5
        (buildDisclosures 5 scenarioPositions) = true ∧
    alteredDisclosures1 18 = buildDisclosures 5 scenarioPositions ∧
    alteredDisclosures2 19 = buildDisclosures 5 scenarioPositions ∧
    alteredDisclosures3 9 = buildDisclosures 5 scenarioPositions ∧
    (∀ v : Nat, v % 11 ≠ 18 % 11 →
      ProveCredential 23 scenarioCredential scenarioCommit 5
        (alteredDisclosures1 v) = false) ∧
    (∀ v : Nat, v % 11 ≠ 19 % 11 →
      ProveCredential 23 scenarioCredential scenarioCommit 5
        (alteredDisclosures2 v) = false) ∧
    (∀ v : Nat, v % 11 ≠ 9 % 11 →
      ProveCredential 23 scenarioCredential scenarioCommit 5
        (alteredDisclosures3 v) = false) := by
  refine ⟨by decide, rfl, rfl, rfl, ?_, ?_, ?_⟩
  · intro v hv
    have hsmall := altered1_small (v % 11) (Nat.mod_lt v (by norm_num)) (by omega)
    unfold ProveCredential at hsmall ⊢
    rw [decide_eq_false_iff_not] at hsmall ⊢
    rw [altered1_mod v]
    exact hsmall
  · intro v hv
    have hsmall := altered2_small (v % 11) (Nat.mod_lt v (by norm_num)) (by omega)
    unfold ProveCredential at hsmall ⊢
    rw [decide_eq_false_iff_not] at hsmall ⊢
    rw [altered2_mod v]
    exact hsmall
  · intro v hv
    have hsmall := altered3_small (v % 11) (Nat.mod_lt v (by norm_num)) (by omega)
    unfold ProveCredential at hsmall ⊢
    rw [decide_eq_false_iff_not] at hsmall ⊢
    rw [altered3_mod v]
    exact hsmall

theorem proveCredential_selective_disclosure_witness :
    ProveCredential 23 scenarioCredential scenarioCommit 5
        (buildDisclosures 5 scenarioPositions) = true ∧
    ProveCredential 23 scenarioCredential scenarioCommit 5
        (alteredDisclosures1 19) = false ∧
    ProveCredential 23 scenarioCredential scenarioCommit 5
        (alteredDisclosures2 100) = false ∧
    ProveCredential 23 scenarioCredential scenarioCommit 5
        (alteredDisclosures3 10) = false :=
  ⟨proveCredential_selective_disclosure.1,
   proveCredential_selective_disclosure.2.2.2.2.1 19 (by decide),
   proveCredential_selective_disclosure.2.2.2.2.2.1 100 (by decide),
   proveCredential_selective_disclosure.2.2.2.2.2.2 10 (by decide)⟩
